import Mathlib

/-!
Shallow embedding of `scripts/generate_synthetic_data.py` (Shafaf-Aid).
The script builds four in-memory collections — countries, regions,
organizations and aid edges — from hardcoded seed tables and a stream of
pseudo-random draws, then serializes them to JSON.  Here the collections
are Lean lists of structures; the random draws consumed by `generate_edges`
are an explicit input list, one record per loop iteration; Python's
`random.choice` (which raises on an empty list) is modelled as an
`Option`-returning selection, so the whole edge builder returns
`Option (List Edge)`.
-/

namespace ShafafAid

/-- One record of the `COUNTRIES` seed list. -/
structure Country where
  id : String
  name : String
  population : Nat
  need_level : String
deriving DecidableEq

/-- One record produced by `generate_regions`. -/
structure Region where
  id : String
  country_id : String
  name : String
  population : Nat
  need_level : String
deriving DecidableEq

/-- One record produced by `generate_orgs`. -/
structure Org where
  id : String
  name : String
deriving DecidableEq

/-- One record produced by `generate_edges`. -/
structure Edge where
  org_id : String
  region_id : String
  aid_type : String
  project_count : Nat
deriving DecidableEq

/-- `NUM_ORGS = 15` (configuration constant of the script). -/
def NUM_ORGS : Nat := 15

/-- `TOTAL_PROJECTS = 180` (configuration constant of the script). -/
def TOTAL_PROJECTS : Nat := 180

/-- `NEED_LEVELS` constant of the script. -/
def NEED_LEVELS : List String := ["low", "medium", "high"]

/-- `AID_TYPES` constant of the script. -/
def AID_TYPES : List String := ["food", "medical", "infrastructure"]

/-- The `COUNTRIES` seed list, verbatim from the script. -/
def COUNTRIES : List Country := [
  ⟨"syria", "Syria", 21500000, "high"⟩,
  ⟨"yemen", "Yemen", 33000000, "high"⟩,
  ⟨"sudan", "Sudan", 45000000, "high"⟩,
  ⟨"afghanistan", "Afghanistan", 40000000, "high"⟩,
  ⟨"somalia", "Somalia", 17000000, "high"⟩,
  ⟨"palestine", "Palestine", 5000000, "high"⟩,
  ⟨"myanmar", "Myanmar", 54000000, "medium"⟩,
  ⟨"ethiopia", "Ethiopia", 120000000, "medium"⟩]

/-- A row of the `REGIONS_DB` table: `(slug, population, need_level)`. -/
abbrev RegionRow := String × Nat × String

/-- The `REGIONS_DB` dict of the script, modelled as an association list
(keys are country ids, in the literal's order). -/
def REGIONS_DB : List (String × List RegionRow) := [
  ("syria", [("aleppo", 4500000, "high"), ("idlib", 3000000, "high"),
    ("damascus", 2500000, "medium"), ("homs", 1500000, "medium"),
    ("raqqa", 900000, "high")]),
  ("yemen", [("sanaa", 4000000, "high"), ("aden", 1200000, "medium"),
    ("taiz", 2800000, "high"), ("hodeidah", 2000000, "high"),
    ("marib", 1000000, "high")]),
  ("sudan", [("khartoum", 6000000, "high"), ("darfur", 9000000, "high"),
    ("kordofan", 4000000, "high"), ("blue-nile", 1200000, "medium")]),
  ("afghanistan", [("kabul", 4500000, "high"), ("herat", 2000000, "medium"),
    ("kandahar", 1500000, "high"), ("mazar", 1000000, "medium")]),
  ("somalia", [("mogadishu", 2500000, "high"), ("baidoa", 800000, "high"),
    ("hargeisa", 1200000, "low"), ("kismayo", 500000, "high")]),
  ("palestine", [("gaza", 2300000, "high"),
    ("west-bank-north", 1500000, "medium"),
    ("west-bank-south", 1200000, "medium")]),
  ("myanmar", [("rakhine", 3000000, "high"), ("yangon", 7000000, "low"),
    ("mandalay", 1500000, "low")]),
  ("ethiopia", [("tigray", 6000000, "high"), ("amhara", 20000000, "medium"),
    ("oromia", 35000000, "medium"), ("somali-region", 5000000, "high")])]

/-- The `NGO_NAMES` seed list, verbatim from the script. -/
def NGO_NAMES : List String := [
  "World Food Programme", "Médecins Sans Frontières", "ICRC",
  "UN Refugee Agency", "UNICEF", "Oxfam", "International Rescue Committee",
  "World Health Organization", "Save the Children", "Islamic Relief",
  "CARE International", "Mercy Corps", "Norwegian Refugee Council",
  "Action Against Hunger", "Direct Relief"]

/-- Python `str.lower()`.  Every uppercase character occurring in the seed
data is ASCII, for which `Char.toLower` agrees with Python. -/
def pyLower (s : String) : String := String.mk (s.data.map Char.toLower)

/-- Python `s.replace(a, b)` specialised to the single-character patterns
and replacements the script uses, where it is a character-wise map. -/
def pyReplaceChar (s : String) (a b : Char) : String :=
  String.mk (s.data.map fun c => if c = a then b else c)

/-- Helper for `pyTitle`: the flag records whether the previous character
was alphabetic (then a following letter is not a word start). -/
def titleAux : Bool → List Char → List Char
  | _, [] => []
  | prevAlpha, c :: cs =>
    (if c.isAlpha then (if prevAlpha then c.toLower else c.toUpper) else c)
      :: titleAux c.isAlpha cs

/-- Python `str.title()`: the first letter of every word is uppercased and
the rest lowercased, a word starting after any non-alphabetic character.
All slugs in the seed table are ASCII, where this matches Python. -/
def pyTitle (s : String) : String := String.mk (titleAux false s.data)

/-- `generate_orgs` of the script: for each NGO name, the id is the name
lowercased, spaces replaced by hyphens, `é` replaced by `e` and `ç` by
`c`. -/
def generate_orgs : List Org :=
  NGO_NAMES.map fun n =>
    { id := pyReplaceChar (pyReplaceChar (pyReplaceChar (pyLower n)
        ' ' '-') 'é' 'e') 'ç' 'c',
      name := n }

/-- Lookup in an association list, modelling Python's
`cid in REGIONS_DB` / `REGIONS_DB[cid]` pair. -/
def lookupDB {α : Type} : List (String × α) → String → Option α
  | [], _ => none
  | (k, v) :: rest, key => if key = k then some v else lookupDB rest key

/-- The region record the script builds from one `REGIONS_DB` row:
`rid = f"{cid}-{r_name}"` and `name = r_name.title().replace("-", " ")`. -/
def regionOfRow (cid : String) (t : RegionRow) : Region :=
  { id := cid ++ "-" ++ t.1,
    country_id := cid,
    name := pyReplaceChar (pyTitle t.1) '-' ' ',
    population := t.2.1,
    need_level := t.2.2 }

/-- `generate_regions` of the script: for every input country whose id is a
key of `REGIONS_DB`, one region per table row, appended in order; countries
without a table entry contribute nothing. -/
def generate_regions : List Country → List Region
  | [] => []
  | country :: rest =>
    (match lookupDB REGIONS_DB country.id with
     | none => []
     | some rows => rows.map (regionOfRow country.id)) ++
      generate_regions rest

/-- The random values one iteration of the edge loop consumes:
the index drawn by `random.choice(orgs)`, the outcome of the
`random.random() < 0.7` test, the index for the region choice, the index
for `random.choice(AID_TYPES)`, and the roll behind `random.randint(1, 15)`
(interpreted as `1 + countRoll % 15`, which ranges over [1, 15]). -/
structure Draw where
  orgIdx : Nat
  biasRoll : Bool
  regIdx : Nat
  aidIdx : Nat
  countRoll : Nat
deriving DecidableEq

/-- `random.choice(l)` with the drawn randomness made explicit: an
arbitrary natural index, reduced modulo the length; `none` exactly when
the list is empty (where Python raises `IndexError`). -/
def choice {α : Type} (l : List α) (i : Nat) : Option α :=
  l.get? (i % l.length)

/-- The `high_need_regions` list-comprehension of `generate_edges`. -/
def highNeed (regions : List Region) : List Region :=
  regions.filter fun r => r.need_level == "high"

/-- The lookup-and-accumulate step of `generate_edges`: a linear scan for
the first edge matching the `(org_id, region_id, aid_type)` triple; if
found its `project_count` is increased in place, otherwise a fresh edge is
appended at the end. -/
def insertEdge : List Edge → String → String → String → Nat → List Edge
  | [], o, r, a, c => [⟨o, r, a, c⟩]
  | e :: rest, o, r, a, c =>
    if e.org_id = o ∧ e.region_id = r ∧ e.aid_type = a then
      { e with project_count := e.project_count + c } :: rest
    else
      e :: insertEdge rest o r a c

/-- The loop body of `generate_edges`, one iteration per draw record:
choose an org, choose a region (from the high-need subset on the biased
branch), choose an aid type, then insert.  `none` as soon as any
`random.choice` is applied to an empty list. -/
def genEdgesAux (orgs : List Org) (regions : List Region) :
    List Draw → List Edge → Option (List Edge)
  | [], edges => some edges
  | d :: ds, edges =>
    match choice orgs d.orgIdx with
    | none => none
    | some org =>
      match (if d.biasRoll then choice (highNeed regions) d.regIdx
             else choice regions d.regIdx) with
      | none => none
      | some target =>
        match choice AID_TYPES d.aidIdx with
        | none => none
        | some aid =>
          genEdgesAux orgs regions ds
            (insertEdge edges org.id target.id aid (1 + d.countRoll % 15))

/-- `generate_edges` of the script.  The Python loop runs exactly
`TOTAL_PROJECTS` times; here the iteration count is the length of the
supplied draw stream, so the script's behaviour is the case
`draws.length = TOTAL_PROJECTS`. -/
def generate_edges (orgs : List Org) (regions : List Region)
    (draws : List Draw) : Option (List Edge) :=
  genEdgesAux orgs regions draws []

/-- The triple the script dedups edges on. -/
def edgeKey (e : Edge) : String × String × String :=
  (e.org_id, e.region_id, e.aid_type)

/-- How one insertion changes the key column: the key list is unchanged
when the triple is already present, and gains the triple at the end
otherwise. -/
theorem insertEdge_map_key (edges : List Edge) (o r a : String) (c : Nat) :
    (insertEdge edges o r a c).map edgeKey =
      if (o, r, a) ∈ edges.map edgeKey then edges.map edgeKey
      else edges.map edgeKey ++ [(o, r, a)] := by
  induction edges with
  | nil => simp [insertEdge, edgeKey]
  | cons e rest ih =>
    by_cases h : e.org_id = o ∧ e.region_id = r ∧ e.aid_type = a
    · have hk : edgeKey e = (o, r, a) := by
        simp [edgeKey, h.1, h.2.1, h.2.2]
      simp [insertEdge, h, hk, edgeKey]
    · have hk : edgeKey e ≠ (o, r, a) := by
        intro hc
        have h1 := congrArg Prod.fst hc
        have h2 := congrArg (fun p : String × String × String => p.2.1) hc
        have h3 := congrArg (fun p : String × String × String => p.2.2) hc
        exact h ⟨h1, h2, h3⟩
    -- the head key differs, so membership reduces to the tail
      have hmem : ((o, r, a) ∈ (e :: rest).map edgeKey) ↔
          ((o, r, a) ∈ rest.map edgeKey) := by
        simp only [List.map_cons, List.mem_cons]
        constructor
        · intro hor
          rcases hor with hor | hor
          · exact absurd hor.symm hk
          · exact hor
        · intro hr
          exact Or.inr hr
      rw [show insertEdge (e :: rest) o r a c =
            e :: insertEdge rest o r a c by simp [insertEdge, h]]
      by_cases hm : (o, r, a) ∈ rest.map edgeKey
      · rw [if_pos (hmem.mpr hm), List.map_cons, List.map_cons, ih,
          if_pos hm]
      · have hm2 : ¬ ((o, r, a) ∈ (e :: rest).map edgeKey) := by
          intro hc
          exact hm (hmem.mp hc)
        rw [if_neg hm2, List.map_cons, List.map_cons, ih, if_neg hm,
          List.cons_append]

/-- One insertion keeps the length when the triple is present and adds one
edge otherwise. -/
theorem insertEdge_length (edges : List Edge) (o r a : String) (c : Nat) :
    (insertEdge edges o r a c).length =
      if (o, r, a) ∈ edges.map edgeKey then edges.length
      else edges.length + 1 := by
  have h := congrArg List.length (insertEdge_map_key edges o r a c)
  simp only [List.length_map] at h
  rw [h]
  by_cases hm : (o, r, a) ∈ edges.map edgeKey
  · simp [hm]
  · simp [hm]

/-- One insertion never shrinks the edge list and never leaves it empty. -/
theorem insertEdge_length_bounds (edges : List Edge) (o r a : String)
    (c : Nat) :
    edges.length ≤ (insertEdge edges o r a c).length ∧
    (insertEdge edges o r a c).length ≤ edges.length + 1 ∧
    1 ≤ (insertEdge edges o r a c).length := by
  rw [insertEdge_length]
  by_cases hm : (o, r, a) ∈ edges.map edgeKey
  · have hne : edges ≠ [] := by
      intro hnil
      rw [hnil] at hm
      simp at hm
    have hpos : 0 < edges.length := List.length_pos.mpr hne
    simp [hm]
    omega
  · simp [hm]

/-- One insertion preserves distinctness of the key triples. -/
theorem insertEdge_nodup (edges : List Edge) (o r a : String) (c : Nat)
    (h : (edges.map edgeKey).Nodup) :
    ((insertEdge edges o r a c).map edgeKey).Nodup := by
  rw [insertEdge_map_key]
  by_cases hm : (o, r, a) ∈ edges.map edgeKey
  · simpa [hm] using h
  · rw [if_neg hm]
    rw [List.nodup_append]
    exact ⟨h, List.nodup_singleton _, List.disjoint_singleton.mpr hm⟩

/-- One insertion adds exactly the drawn count to the total of the
`project_count` column, whether it lands on an existing edge or a new
one. -/
theorem insertEdge_sum (edges : List Edge) (o r a : String) (c : Nat) :
    ((insertEdge edges o r a c).map Edge.project_count).sum =
      (edges.map Edge.project_count).sum + c := by
  induction edges with
  | nil => simp [insertEdge]
  | cons e rest ih =>
    by_cases h : e.org_id = o ∧ e.region_id = r ∧ e.aid_type = a
    · simp only [insertEdge, if_pos h, List.map_cons, List.sum_cons]
      omega
    · simp only [insertEdge, if_neg h, List.map_cons, List.sum_cons, ih]
      omega

/-- The loop of `generate_edges` preserves distinctness of key triples. -/
theorem genEdgesAux_nodup (orgs : List Org) (regions : List Region) :
    ∀ (draws : List Draw) (acc es : List Edge),
      genEdgesAux orgs regions draws acc = some es →
      (acc.map edgeKey).Nodup → (es.map edgeKey).Nodup := by
  intro draws
  induction draws with
  | nil =>
    intro acc es h hn
    simp only [genEdgesAux, Option.some.injEq] at h
    rw [← h]
    exact hn
  | cons d ds ih =>
    intro acc es h hn
    rw [genEdgesAux] at h
    cases hco : choice orgs d.orgIdx with
    | none => rw [hco] at h; exact absurd h (by simp)
    | some org =>
      rw [hco] at h
      cases hcr : (if d.biasRoll then choice (highNeed regions) d.regIdx
          else choice regions d.regIdx) with
      | none => rw [hcr] at h; exact absurd h (by simp)
      | some target =>
        rw [hcr] at h
        cases hca : choice AID_TYPES d.aidIdx with
        | none => rw [hca] at h; exact absurd h (by simp)
        | some aid =>
          rw [hca] at h
          exact ih _ es h (insertEdge_nodup _ _ _ _ _ hn)

/-- Claim C1: in any list `generate_edges` returns, the
`(org_id, region_id, aid_type)` key triples are pairwise distinct; and an
insertion whose triple matches an existing edge keeps the edge count
unchanged while adding the drawn count to the `project_count` column —
it accumulates instead of appending a duplicate. -/
theorem c1_unique_triples :
    (∀ (orgs : List Org) (regions : List Region) (draws : List Draw)
        (es : List Edge),
      generate_edges orgs regions draws = some es →
      (es.map edgeKey).Nodup) ∧
    (∀ (edges : List Edge) (o r a : String) (c : Nat),
      (o, r, a) ∈ edges.map edgeKey →
      (insertEdge edges o r a c).length = edges.length ∧
      ((insertEdge edges o r a c).map Edge.project_count).sum =
        (edges.map Edge.project_count).sum + c) := by
  constructor
  · intro orgs regions draws es h
    exact genEdgesAux_nodup orgs regions draws [] es h (by simp)
  · intro edges o r a c hm
    refine ⟨?_, insertEdge_sum edges o r a c⟩
    rw [insertEdge_length, if_pos hm]

/-- Claim C1, witness: a two-draw run hitting the same triple twice yields
one edge with the accumulated count, and a matching insertion into that
list keeps its length at one while adding the count. -/
theorem c1_unique_triples_witness :
    (([(⟨"o", "r", "food", 2⟩ : Edge)]).map edgeKey).Nodup ∧
    ((insertEdge [⟨"o", "r", "food", 2⟩] "o" "r" "food" 5).length =
      ([(⟨"o", "r", "food", 2⟩ : Edge)]).length ∧
     ((insertEdge [⟨"o", "r", "food", 2⟩] "o" "r" "food" 5).map
        Edge.project_count).sum =
      (([(⟨"o", "r", "food", 2⟩ : Edge)]).map Edge.project_count).sum + 5) :=
  ⟨c1_unique_triples.1 [⟨"o", "O"⟩] [⟨"r", "x", "R", 1, "high"⟩]
      [⟨0, false, 0, 0, 0⟩, ⟨0, false, 0, 0, 0⟩] _ (by decide),
   c1_unique_triples.2 [⟨"o", "r", "food", 2⟩] "o" "r" "food" 5 (by decide)⟩

theorem choice_mem {α : Type} (l : List α) (i : Nat) (x : α)
    (h : choice l i = some x) : x ∈ l :=
  List.get?_mem h

theorem choice_isSome {α : Type} (l : List α) (i : Nat) (h : l ≠ []) :
    (choice l i).isSome = true := by
  have hlt : i % l.length < l.length :=
    Nat.mod_lt _ (List.length_pos.mpr h)
  rw [choice, List.get?_eq_get hlt]
  rfl

/-- The loop of `generate_edges` can only keep or grow the edge list, by
at most one edge per draw. -/
theorem genEdgesAux_length (orgs : List Org) (regions : List Region) :
    ∀ (draws : List Draw) (acc es : List Edge),
      genEdgesAux orgs regions draws acc = some es →
      acc.length ≤ es.length ∧ es.length ≤ acc.length + draws.length := by
  intro draws
  induction draws with
  | nil =>
    intro acc es h
    simp only [genEdgesAux, Option.some.injEq] at h
    rw [← h]
    exact ⟨Nat.le_refl _, by simp⟩
  | cons d ds ih =>
    intro acc es h
    rw [genEdgesAux] at h
    cases hco : choice orgs d.orgIdx with
    | none => rw [hco] at h; exact absurd h (by simp)
    | some org =>
      rw [hco] at h
      cases hcr : (if d.biasRoll then choice (highNeed regions) d.regIdx
          else choice regions d.regIdx) with
      | none => rw [hcr] at h; exact absurd h (by simp)
      | some target =>
        rw [hcr] at h
        cases hca : choice AID_TYPES d.aidIdx with
        | none => rw [hca] at h; exact absurd h (by simp)
        | some aid =>
          rw [hca] at h
          have h1 := ih _ es h
          have h2 := insertEdge_length_bounds acc org.id target.id aid
            (1 + d.countRoll % 15)
          simp only [List.length_cons]
          omega

/-- Every edge in the loop's accumulator keeps a positive project count:
each insertion adds a count of at least one. -/
theorem insertEdge_counts (edges : List Edge) (o r a : String) (c : Nat)
    (hall : ∀ e ∈ edges, 1 ≤ e.project_count) (hc : 1 ≤ c) :
    ∀ x ∈ insertEdge edges o r a c, 1 ≤ x.project_count := by
  induction edges with
  | nil =>
    intro x hx
    simp only [insertEdge, List.mem_singleton] at hx
    rw [hx]
    exact hc
  | cons e rest ih =>
    intro x hx
    by_cases h : e.org_id = o ∧ e.region_id = r ∧ e.aid_type = a
    · rw [show insertEdge (e :: rest) o r a c =
          { e with project_count := e.project_count + c } :: rest by
            simp [insertEdge, h]] at hx
      rcases List.mem_cons.mp hx with hx | hx
      · rw [hx]
        have := hall e (List.mem_cons_self e rest)
        simp only
        omega
      · exact hall x (List.mem_cons_of_mem e hx)
    · rw [show insertEdge (e :: rest) o r a c =
          e :: insertEdge rest o r a c by simp [insertEdge, h]] at hx
      rcases List.mem_cons.mp hx with hx | hx
      · rw [hx]
        exact hall e (List.mem_cons_self e rest)
      · exact ih (fun y hy => hall y (List.mem_cons_of_mem e hy)) x hx

theorem genEdgesAux_counts (orgs : List Org) (regions : List Region) :
    ∀ (draws : List Draw) (acc es : List Edge),
      genEdgesAux orgs regions draws acc = some es →
      (∀ e ∈ acc, 1 ≤ e.project_count) →
      ∀ e ∈ es, 1 ≤ e.project_count := by
  intro draws
  induction draws with
  | nil =>
    intro acc es h hall
    simp only [genEdgesAux, Option.some.injEq] at h
    rw [← h]
    exact hall
  | cons d ds ih =>
    intro acc es h hall
    rw [genEdgesAux] at h
    cases hco : choice orgs d.orgIdx with
    | none => rw [hco] at h; exact absurd h (by simp)
    | some org =>
      rw [hco] at h
      cases hcr : (if d.biasRoll then choice (highNeed regions) d.regIdx
          else choice regions d.regIdx) with
      | none => rw [hcr] at h; exact absurd h (by simp)
      | some target =>
        rw [hcr] at h
        cases hca : choice AID_TYPES d.aidIdx with
        | none => rw [hca] at h; exact absurd h (by simp)
        | some aid =>
          rw [hca] at h
          exact ih _ es h (insertEdge_counts acc org.id target.id aid
            (1 + d.countRoll % 15) hall (Nat.le_add_right 1 _))

/-- Claim C5: whenever `generate_edges` is run for `TOTAL_PROJECTS = 180`
draws and returns a list, every edge's `project_count` is at least 1 and
the number of edges lies between 1 and `TOTAL_PROJECTS`. -/
theorem c5_edge_bounds (orgs : List Org) (regions : List Region)
    (draws : List Draw) (es : List Edge)
    (hl : draws.length = TOTAL_PROJECTS)
    (h : generate_edges orgs regions draws = some es) :
    (∀ e ∈ es, 1 ≤ e.project_count) ∧
    1 ≤ es.length ∧ es.length ≤ TOTAL_PROJECTS := by
  refine ⟨genEdgesAux_counts orgs regions draws [] es h (by simp), ?_, ?_⟩
  · cases draws with
    | nil => exact absurd hl (by decide)
    | cons d ds =>
      rw [generate_edges, genEdgesAux] at h
      cases hco : choice orgs d.orgIdx with
      | none => rw [hco] at h; exact absurd h (by simp)
      | some org =>
        rw [hco] at h
        cases hcr : (if d.biasRoll then choice (highNeed regions) d.regIdx
            else choice regions d.regIdx) with
        | none => rw [hcr] at h; exact absurd h (by simp)
        | some target =>
          rw [hcr] at h
          cases hca : choice AID_TYPES d.aidIdx with
          | none => rw [hca] at h; exact absurd h (by simp)
          | some aid =>
            rw [hca] at h
            have h1 := (genEdgesAux_length orgs regions ds _ es h).1
            have h2 : (insertEdge [] org.id target.id aid
                (1 + d.countRoll % 15)).length = 1 := rfl
            omega
  · have h2 := (genEdgesAux_length orgs regions draws [] es h).2
    simp only [List.length_nil, Nat.zero_add] at h2
    rw [hl] at h2
    exact h2

set_option maxRecDepth 4000 in
/-- Claim C5, witness: 180 identical draws against a one-org, one-region
world accumulate into a single edge of count 180, within the bounds. -/
theorem c5_edge_bounds_witness :
    (∀ e ∈ ([⟨"o", "r", "food", 180⟩] : List Edge),
      1 ≤ e.project_count) ∧
    1 ≤ ([(⟨"o", "r", "food", 180⟩ : Edge)]).length ∧
    ([(⟨"o", "r", "food", 180⟩ : Edge)]).length ≤ TOTAL_PROJECTS :=
  c5_edge_bounds [⟨"o", "O"⟩] [⟨"r", "x", "R", 1, "high"⟩]
    (List.replicate 180 ⟨0, false, 0, 0, 0⟩) [⟨"o", "r", "food", 180⟩]
    (by decide) (by decide)

/-- The loop of `generate_edges` never fails when the org list, the region
list and its high-need sublist are all non-empty: every `random.choice`
then has something to pick. -/
theorem genEdgesAux_isSome (orgs : List Org) (regions : List Region)
    (ho : orgs ≠ []) (hh : highNeed regions ≠ []) (hr : regions ≠ []) :
    ∀ (draws : List Draw) (acc : List Edge),
      (genEdgesAux orgs regions draws acc).isSome = true := by
  intro draws
  induction draws with
  | nil => intro acc; rfl
  | cons d ds ih =>
    intro acc
    rw [genEdgesAux]
    obtain ⟨org, hco⟩ :=
      Option.isSome_iff_exists.mp (choice_isSome orgs d.orgIdx ho)
    rw [hco]
    have hreg : ∃ t, (if d.biasRoll then choice (highNeed regions) d.regIdx
        else choice regions d.regIdx) = some t := by
      by_cases hb : d.biasRoll = true
      · rw [if_pos hb]
        exact Option.isSome_iff_exists.mp
          (choice_isSome (highNeed regions) d.regIdx hh)
      · rw [if_neg hb]
        exact Option.isSome_iff_exists.mp
          (choice_isSome regions d.regIdx hr)
    obtain ⟨target, hcr⟩ := hreg
    rw [hcr]
    obtain ⟨aid, hca⟩ :=
      Option.isSome_iff_exists.mp
        (choice_isSome AID_TYPES d.aidIdx (by decide))
    rw [hca]
    exact ih _

/-- Claim C9: on the seeded data the high-need region sublist is
non-empty, so the biased branch's `random.choice` is always defined and
`generate_edges` succeeds on every draw stream. -/
theorem c9_edges_never_fail :
    (highNeed (generate_regions COUNTRIES)).isEmpty = false ∧
    ∀ draws : List Draw,
      (generate_edges generate_orgs (generate_regions COUNTRIES)
        draws).isSome = true := by
  refine ⟨by decide, fun draws => ?_⟩
  exact genEdgesAux_isSome generate_orgs (generate_regions COUNTRIES)
    (by decide) (by decide) (by decide) draws []

/-- Referential integrity of one edge against the generator's inputs. -/
def GoodEdge (orgs : List Org) (regions : List Region) (e : Edge) : Prop :=
  (∃ o ∈ orgs, e.org_id = o.id) ∧
  (∃ r ∈ regions, e.region_id = r.id) ∧
  e.aid_type ∈ AID_TYPES

theorem insertEdge_good {orgs : List Org} {regions : List Region}
    (edges : List Edge) (o r a : String) (c : Nat)
    (hall : ∀ e ∈ edges, GoodEdge orgs regions e)
    (hnew : GoodEdge orgs regions ⟨o, r, a, c⟩) :
    ∀ x ∈ insertEdge edges o r a c, GoodEdge orgs regions x := by
  induction edges with
  | nil =>
    intro x hx
    simp only [insertEdge, List.mem_singleton] at hx
    rw [hx]
    exact hnew
  | cons e rest ih =>
    intro x hx
    by_cases h : e.org_id = o ∧ e.region_id = r ∧ e.aid_type = a
    · rw [show insertEdge (e :: rest) o r a c =
          { e with project_count := e.project_count + c } :: rest by
            simp [insertEdge, h]] at hx
      rcases List.mem_cons.mp hx with hx | hx
      · rw [hx]
        exact hall e (List.mem_cons_self e rest)
      · exact hall x (List.mem_cons_of_mem e hx)
    · rw [show insertEdge (e :: rest) o r a c =
          e :: insertEdge rest o r a c by simp [insertEdge, h]] at hx
      rcases List.mem_cons.mp hx with hx | hx
      · rw [hx]
        exact hall e (List.mem_cons_self e rest)
      · exact ih (fun y hy => hall y (List.mem_cons_of_mem e hy)) x hx

theorem genEdgesAux_good (orgs : List Org) (regions : List Region) :
    ∀ (draws : List Draw) (acc es : List Edge),
      genEdgesAux orgs regions draws acc = some es →
      (∀ e ∈ acc, GoodEdge orgs regions e) →
      ∀ e ∈ es, GoodEdge orgs regions e := by
  intro draws
  induction draws with
  | nil =>
    intro acc es h hall
    simp only [genEdgesAux, Option.some.injEq] at h
    rw [← h]
    exact hall
  | cons d ds ih =>
    intro acc es h hall
    rw [genEdgesAux] at h
    cases hco : choice orgs d.orgIdx with
    | none => rw [hco] at h; exact absurd h (by simp)
    | some org =>
      rw [hco] at h
      cases hcr : (if d.biasRoll then choice (highNeed regions) d.regIdx
          else choice regions d.regIdx) with
      | none => rw [hcr] at h; exact absurd h (by simp)
      | some target =>
        rw [hcr] at h
        cases hca : choice AID_TYPES d.aidIdx with
        | none => rw [hca] at h; exact absurd h (by simp)
        | some aid =>
          rw [hca] at h
          have htr : target ∈ regions := by
            by_cases hb : d.biasRoll = true
            · rw [if_pos hb] at hcr
              exact (List.mem_filter.mp
                (choice_mem (highNeed regions) d.regIdx target hcr)).1
            · rw [if_neg hb] at hcr
              exact choice_mem regions d.regIdx target hcr
          have hnew : GoodEdge orgs regions
              ⟨org.id, target.id, aid, 1 + d.countRoll % 15⟩ :=
            ⟨⟨org, choice_mem orgs d.orgIdx org hco, rfl⟩,
             ⟨target, htr, rfl⟩,
             choice_mem AID_TYPES d.aidIdx aid hca⟩
          exact ih _ es h
            (insertEdge_good acc org.id target.id aid _ hall hnew)

/-- Claim C10: every edge a successful run of `generate_edges` returns
names an org id from the input org list, a region id from the input
region list, and one of the three aid types — for every draw stream. -/
theorem c10_referential_integrity (orgs : List Org)
    (regions : List Region) (draws : List Draw) (es : List Edge)
    (h : generate_edges orgs regions draws = some es) :
    ∀ e ∈ es, (∃ o ∈ orgs, e.org_id = o.id) ∧
      (∃ r ∈ regions, e.region_id = r.id) ∧
      e.aid_type ∈ AID_TYPES :=
  genEdgesAux_good orgs regions draws [] es h (by simp)

/-- Claim C10, witness: the edge produced by a single concrete draw
points back at the only org and the only region of a tiny input world. -/
theorem c10_referential_integrity_witness :
    (∃ o ∈ ([⟨"o", "O"⟩] : List Org), "o" = Org.id o) ∧
    (∃ r ∈ ([⟨"r", "x", "R", 1, "high"⟩] : List Region),
      "r" = Region.id r) ∧
    "food" ∈ AID_TYPES :=
  c10_referential_integrity [⟨"o", "O"⟩] [⟨"r", "x", "R", 1, "high"⟩]
    [⟨0, false, 0, 0, 0⟩] [⟨"o", "r", "food", 1⟩] (by decide)
    ⟨"o", "r", "food", 1⟩ (by decide)

/-- A character is accented when it lies outside ASCII; every non-ASCII
character occurring in the seed names is an accented letter, so on this
data the two notions coincide. -/
def isAccented (c : Char) : Bool := 127 < c.val

/-- Claim C2, counterexample: `generate_regions` on the seeded country
list returns 32 records, not 33 — the sum of `REGIONS_DB` row counts is
5+5+4+4+4+3+3+4 = 32. -/
theorem c2_counterexample :
    ((generate_regions COUNTRIES).length == 33) = false ∧
    (generate_regions COUNTRIES).length = 32 := by decide

/-- Claim C2, amended: with the seeded `COUNTRIES` list and `REGIONS_DB`
table, `generate_regions` returns exactly 32 region records, equal to the
sum of the `REGIONS_DB` row counts. -/
theorem c2_regions_count :
    (generate_regions COUNTRIES).length = 32 ∧
    (REGIONS_DB.map fun p => p.2.length).sum = 32 := by decide

/-- Claim C3: `generate_orgs` preserves the order of `NGO_NAMES` (the
name column is exactly `NGO_NAMES`), and every id is the name lowercased,
with spaces replaced by hyphens, `é` replaced by `e` and `ç` by `c`. -/
theorem c3_org_id_derivation :
    generate_orgs.map Org.name = NGO_NAMES ∧
    generate_orgs.map Org.id = NGO_NAMES.map (fun n =>
      pyReplaceChar (pyReplaceChar (pyReplaceChar (pyLower n)
        ' ' '-') 'é' 'e') 'ç' 'c') := by decide

/-- Claim C4, counterexample: the org id derived from
"Médecins Sans Frontières" is "medecins-sans-frontières", which retains
the accented character `è` (only `é` and `ç` are replaced), so it is not
true that no id contains an accented character. -/
theorem c4_counterexample :
    (generate_orgs.map Org.id).get? 1 = some "medecins-sans-frontières" ∧
    (generate_orgs.all fun o =>
      o.id.data.all fun c => !c.isWhitespace && !isAccented c) = false := by
  decide

/-- Claim C4, amended: `generate_orgs` returns 15 orgs with pairwise
distinct ids, no id contains whitespace or the characters `é`/`ç`, and
exactly one id — "medecins-sans-frontières" — still contains an accented
character. -/
theorem c4_org_ids_amended :
    generate_orgs.length = 15 ∧
    (generate_orgs.map Org.id).Nodup ∧
    (generate_orgs.all fun o =>
      o.id.data.all fun c => !c.isWhitespace && c != 'é' && c != 'ç') = true ∧
    (generate_orgs.filter fun o => o.id.data.any isAccented).map Org.id =
      ["medecins-sans-frontières"] := by decide

/-- The display name exactly as the spec words it: hyphens replaced by
spaces first, then each word capitalized. -/
def specRegionName (slug : String) : String :=
  pyTitle (pyReplaceChar slug '-' ' ')

/-- A region record built with the spec's wording of the display name
(the code applies `title()` before replacing hyphens; the spec describes
the reverse order). -/
def specRegionOfRow (cid : String) (t : RegionRow) : Region :=
  { id := cid ++ "-" ++ t.1,
    country_id := cid,
    name := specRegionName t.1,
    population := t.2.1,
    need_level := t.2.2 }

/-- `generate_regions` as the spec describes it, for comparison with the
embedding of the code. -/
def specGenerateRegions : List Country → List Region
  | [] => []
  | country :: rest =>
    (match lookupDB REGIONS_DB country.id with
     | none => []
     | some rows => rows.map (specRegionOfRow country.id)) ++
      specGenerateRegions rest

theorem lookupDB_mem {α : Type} :
    ∀ (l : List (String × α)) (k : String) (v : α),
      lookupDB l k = some v → (k, v) ∈ l := by
  intro l
  induction l with
  | nil => intro k v h; exact absurd h (by simp [lookupDB])
  | cons p rest ih =>
    intro k v h
    rw [show lookupDB (p :: rest) k =
        (if k = p.1 then some p.2 else lookupDB rest k) by
          rw [show (p :: rest) = ((p.1, p.2) :: rest) by rfl, lookupDB]]
      at h
    by_cases hk : k = p.1
    · rw [if_pos hk] at h
      have hv : p.2 = v := Option.some.inj h
      rw [hk, ← hv]
      exact List.mem_cons_self p rest
    · rw [if_neg hk] at h
      exact List.mem_cons_of_mem _ (ih k v h)

/-- On every slug of the seed table the two orders of title-casing and
hyphen replacement agree. -/
theorem rows_name_ok :
    ∀ p ∈ REGIONS_DB, ∀ t ∈ p.2,
      pyReplaceChar (pyTitle t.1) '-' ' ' = specRegionName t.1 := by
  decide

/-- Claim C6: for every input country list, `generate_regions` emits, per
country found in `REGIONS_DB`, one record per table row with id
`country-slug` and the display name the spec describes (hyphens to
spaces, words capitalized); and a country absent from the table yields no
regions and no error. -/
theorem c6_region_refinement :
    (∀ countries : List Country,
      generate_regions countries = specGenerateRegions countries) ∧
    (∀ c : Country, lookupDB REGIONS_DB c.id = none →
      generate_regions [c] = []) := by
  constructor
  · intro countries
    induction countries with
    | nil => rfl
    | cons country rest ih =>
      cases hlk : lookupDB REGIONS_DB country.id with
      | none => simp [generate_regions, specGenerateRegions, hlk, ih]
      | some rows =>
        simp only [generate_regions, specGenerateRegions, hlk, ih]
        congr 1
        apply List.map_congr_left
        intro t ht
        have hmem := lookupDB_mem REGIONS_DB country.id rows hlk
        have hname := rows_name_ok (country.id, rows) hmem t ht
        unfold regionOfRow specRegionOfRow
        rw [hname]
  · intro c h
    simp [generate_regions, h]

/-- Claim C6, witness: a country with an id missing from `REGIONS_DB`
produces an empty region list. -/
theorem c6_region_refinement_witness :
    generate_regions [⟨"atlantis", "Atlantis", 1, "low"⟩] = [] :=
  c6_region_refinement.2 ⟨"atlantis", "Atlantis", 1, "low"⟩ (by decide)

/-- Claim C7: every region's `country_id` is the id of an input country,
and the region count is the sum over the input countries of their
region-table row counts (zero for countries absent from the table). -/
theorem c7_region_provenance : ∀ countries : List Country,
    (∀ r ∈ generate_regions countries,
      ∃ c ∈ countries, r.country_id = c.id) ∧
    (generate_regions countries).length =
      (countries.map fun c =>
        ((lookupDB REGIONS_DB c.id).getD []).length).sum := by
  intro countries
  induction countries with
  | nil => exact ⟨by simp [generate_regions], rfl⟩
  | cons country rest ih =>
    constructor
    · intro r hr
      rw [generate_regions] at hr
      rcases List.mem_append.mp hr with hr | hr
      · cases hlk : lookupDB REGIONS_DB country.id with
        | none => rw [hlk] at hr; simp at hr
        | some rows =>
          rw [hlk] at hr
          obtain ⟨t, ht, hrt⟩ := List.mem_map.mp hr
          exact ⟨country, List.mem_cons_self _ _, by rw [← hrt]; rfl⟩
      · obtain ⟨c, hc, hcid⟩ := ih.1 r hr
        exact ⟨c, List.mem_cons_of_mem _ hc, hcid⟩
    · cases hlk : lookupDB REGIONS_DB country.id with
      | none => simp [generate_regions, hlk, ih.2]
      | some rows => simp [generate_regions, hlk, ih.2]

/-- Claim C7, witness: on the seeded country list the first region's
country id names a seeded country, and the 32 regions match the row-count
sum. -/
theorem c7_region_provenance_witness :
    (∃ c ∈ COUNTRIES,
      (regionOfRow "syria" ("aleppo", 4500000, "high")).country_id =
        c.id) ∧
    (generate_regions COUNTRIES).length =
      (COUNTRIES.map fun c =>
        ((lookupDB REGIONS_DB c.id).getD []).length).sum :=
  ⟨(c7_region_provenance COUNTRIES).1
      (regionOfRow "syria" ("aleppo", 4500000, "high")) (by decide),
   (c7_region_provenance COUNTRIES).2⟩

set_option maxRecDepth 4000 in
/-- Claim C8: the countries, orgs and regions are pure values of the seed
tables, identical on every run, while `generate_edges` depends on the
draw stream: two streams of the script's length (180) yield different
edge lists. -/
theorem c8_structure_deterministic_edges_vary :
    (COUNTRIES = COUNTRIES ∧ generate_orgs = generate_orgs ∧
      ∀ countries : List Country,
        generate_regions countries = generate_regions countries) ∧
    ∃ d1 d2 : List Draw,
      d1.length = TOTAL_PROJECTS ∧ d2.length = TOTAL_PROJECTS ∧
      ∃ es1 es2 : List Edge,
        generate_edges generate_orgs (generate_regions COUNTRIES) d1 =
          some es1 ∧
        generate_edges generate_orgs (generate_regions COUNTRIES) d2 =
          some es2 ∧
        (es1 == es2) = false := by
  refine ⟨⟨rfl, rfl, fun _ => rfl⟩,
    List.replicate 180 ⟨0, false, 0, 0, 0⟩,
    List.replicate 180 ⟨0, false, 0, 0, 1⟩,
    by decide, by decide,
    [⟨"world-food-programme", "syria-aleppo", "food", 180⟩],
    [⟨"world-food-programme", "syria-aleppo", "food", 360⟩],
    by decide, by decide, by decide⟩

end ShafafAid
